import Mathlib

/-!
Shallow embedding of the 74HC595 shift-register driver `src/sreg.cpp`.

The C file keeps process-wide static state (three pin numbers, a chain
count, and a signed-int mirror of the register value); we model that state
as an explicit record threaded through the operations.  A C `int` value is
represented by its 32-bit two's-complement bit pattern, a `Nat` below
`2 ^ 32`; a `uint8_t` pin number is a `Nat` below `256` (stored mod 256).
Hardware effects (`pinMode(p, OUTPUT)` and `digitalWrite(p, v)`) are
recorded as an ordered event trace.
-/

namespace Sreg

/-- The number of values of a 32-bit machine integer. -/
def W32 : Nat := 2 ^ 32

/-- 32-bit complement: the bit pattern of the C expression `~x` on `int`,
for a pattern `x < 2 ^ 32`. -/
def not32 (x : Nat) : Nat := x ^^^ (W32 - 1)

/-- One hardware effect issued by the driver: configuring a pin as a
digital output (`pinMode(p, OUTPUT)`) or driving a pin to a level
(`digitalWrite(p, v)`). -/
inductive Ev : Type where
  | pinMode : Nat → Ev
  | digitalWrite : Nat → Nat → Ev
  deriving DecidableEq, Repr

/-- The static state of `sreg.cpp`: `ds_`, `shcp_`, `stcp_` (uint8_t pin
numbers), `sreg_count_` (chain length) and `shcp_reg_` (the in-memory
mirror of the register value, as a 32-bit pattern). -/
@[ext] structure SregState : Type where
  ds_ : Nat
  shcp_ : Nat
  stcp_ : Nat
  sreg_count_ : Nat
  shcp_reg_ : Nat
  deriving DecidableEq, Repr

/-- C statics are zero-initialized before `sreg_init` runs. -/
def initialState : SregState := ⟨0, 0, 0, 0, 0⟩

/-- `sreg_test_bit`: `return !!(shcp_reg_ & 1 << pin);`. -/
def sreg_test_bit (st : SregState) (pin : Nat) : Nat :=
  if st.shcp_reg_ &&& (1 <<< pin) ≠ 0 then 1 else 0

/-- `sreg_test_all_bits`: `return shcp_reg_;`. -/
def sreg_test_all_bits (st : SregState) : Nat :=
  st.shcp_reg_

/-- `sreg_write_bit`:
`shcp_reg_ = (shcp_reg_ & ~(1 << pin)) | (!!bit_value << pin);`.
Memory-only: the body contains no pin calls, so it emits no events. -/
def sreg_write_bit (st : SregState) (pin bit_value : Nat) : SregState :=
  { st with shcp_reg_ :=
      (st.shcp_reg_ &&& not32 (1 <<< pin)) |||
        ((if bit_value ≠ 0 then 1 else 0) <<< pin) }

/-- `sreg_invert_bit`: `sreg_write_bit(pin, !sreg_test_bit(pin));`.
Memory-only. -/
def sreg_invert_bit (st : SregState) (pin : Nat) : SregState :=
  sreg_write_bit st pin (if sreg_test_bit st pin = 0 then 1 else 0)

/-- `sreg_latch_low`: drives `stcp_`, `ds_`, `shcp_` low, in that order.
The state is untouched. -/
def sreg_latch_low (st : SregState) : SregState × List Ev :=
  (st, [Ev.digitalWrite st.stcp_ 0, Ev.digitalWrite st.ds_ 0,
        Ev.digitalWrite st.shcp_ 0])

/-- The body of the `for` loop of `sreg_latch_high`, run for bit indices
`n - 1` down to `0`: clock low, data := bit value, clock high, data low. -/
def shiftLoop (st : SregState) : Nat → List Ev
  | 0 => []
  | n + 1 =>
      Ev.digitalWrite st.shcp_ 0 ::
      Ev.digitalWrite st.ds_ (sreg_test_bit st n) ::
      Ev.digitalWrite st.shcp_ 1 ::
      Ev.digitalWrite st.ds_ 0 ::
      shiftLoop st n

/-- `sreg_latch_high`: the shift loop over `i = (4 << sreg_count_) - 1`
down to `0`, then one `digitalWrite(stcp_, 1)`.  The state is untouched. -/
def sreg_latch_high (st : SregState) : SregState × List Ev :=
  (st, shiftLoop st (4 <<< st.sreg_count_) ++ [Ev.digitalWrite st.stcp_ 1])

/-- `sreg_write_bits`: `shcp_reg_ = bits; sreg_latch_low();
sreg_latch_high();`.  The stored pattern is the int value mod `2 ^ 32`. -/
def sreg_write_bits (st : SregState) (bits : Nat) : SregState × List Ev :=
  let st1 : SregState := { st with shcp_reg_ := bits % W32 }
  let r2 := sreg_latch_low st1
  let r3 := sreg_latch_high r2.1
  (r3.1, r2.2 ++ r3.2)

/-- `sreg_init`: stores the configuration, configures the three pins as
outputs, then pushes `init_value` through `sreg_write_bits`. -/
def sreg_init (st : SregState) (ds shcp stcp init_value sreg_count : Nat) :
    SregState × List Ev :=
  let st1 : SregState :=
    { ds_ := ds % 256, shcp_ := shcp % 256, stcp_ := stcp % 256,
      sreg_count_ := sreg_count, shcp_reg_ := st.shcp_reg_ }
  let r2 := sreg_write_bits st1 init_value
  (r2.1, [Ev.pinMode st1.ds_, Ev.pinMode st1.shcp_, Ev.pinMode st1.stcp_]
          ++ r2.2)

/-- Spec-side description of the push sequence of `latchHigh` (claim C1):
for each bit index `i` counting down from `W - 1` to `0`, shift-clock low,
data := bit `i`, shift-clock high, data low; then one latch-clock high. -/
def specPushTrace (ds shcp stcp : Nat) (bit : Nat → Nat) (W : Nat) :
    List Ev :=
  ((List.range W).reverse.flatMap fun i =>
    [Ev.digitalWrite shcp 0, Ev.digitalWrite ds (bit i),
     Ev.digitalWrite shcp 1, Ev.digitalWrite ds 0])
    ++ [Ev.digitalWrite stcp 1]

/-- The level of the first `digitalWrite` to a given pin in a trace, if
any. -/
def firstWriteTo (pin : Nat) : List Ev → Option Nat
  | [] => none
  | Ev.digitalWrite p v :: rest =>
      if p = pin then some v else firstWriteTo pin rest
  | Ev.pinMode _ :: rest => firstWriteTo pin rest

/-- The number of `digitalWrite` events in a trace. -/
def dwCount : List Ev → Nat
  | [] => 0
  | Ev.digitalWrite _ _ :: rest => dwCount rest + 1
  | Ev.pinMode _ :: rest => dwCount rest

/-- The data-pin levels driven at the successive shift-clock rising edges
of a push, most significant first: bit `n - 1` down to bit `0`. -/
def dataLevels (st : SregState) : Nat → List Nat
  | 0 => []
  | n + 1 => sreg_test_bit st n :: dataLevels st n

/-- The value a chain of shift stages holds after clocking in a list of
levels most-significant-first. -/
def decodeMSB : List Nat → Nat
  | [] => 0
  | b :: rest => b * 2 ^ rest.length + decodeMSB rest

/-- The bit width of one hardware push: the loop bound `4 << sreg_count_`
of `sreg_latch_high`. -/
def pushWidth (st : SregState) : Nat := 4 <<< st.sreg_count_

/-- The register value a push commits to the chain: the low `pushWidth`
bits of the mirror (justified by `decodeMSB_dataLevels`). -/
def pushedValue (st : SregState) : Nat := st.shcp_reg_ % 2 ^ pushWidth st

/-- Driver state paired with the hardware side: `hw` is the last value
committed to the chain by a latch-high push. -/
structure Sys : Type where
  st : SregState
  hw : Nat
  deriving DecidableEq, Repr

/-- `sreg_latch_low` at the system level: no bits are transferred. -/
def sysLatchLow (s : Sys) : Sys :=
  { s with st := (sreg_latch_low s.st).1 }

/-- `sreg_latch_high` at the system level: the chain now holds the pushed
value. -/
def sysLatchHigh (s : Sys) : Sys :=
  { st := (sreg_latch_high s.st).1, hw := pushedValue s.st }

/-- `sreg_write_bit` at the system level: memory only. -/
def sysWriteBit (s : Sys) (pin bit_value : Nat) : Sys :=
  { s with st := sreg_write_bit s.st pin bit_value }

/-- `sreg_invert_bit` at the system level: memory only. -/
def sysInvertBit (s : Sys) (pin : Nat) : Sys :=
  { s with st := sreg_invert_bit s.st pin }

/-- `sreg_write_bits` at the system level: store, then latch low, then
latch high. -/
def sysWriteBits (s : Sys) (bits : Nat) : Sys :=
  sysLatchHigh (sysLatchLow
    { s with st := { s.st with shcp_reg_ := bits % W32 } })

/-- `sreg_init` at the system level: store the configuration, then push
the initial value through `sysWriteBits`. -/
def sysInit (s : Sys) (ds shcp stcp init_value sreg_count : Nat) : Sys :=
  sysWriteBits
    { s with st :=
        { ds_ := ds % 256, shcp_ := shcp % 256, stcp_ := stcp % 256,
          sreg_count_ := sreg_count, shcp_reg_ := s.st.shcp_reg_ } }
    init_value

/-- The mirror agrees with the last value pushed to hardware. -/
@[reducible] def mirrorSynced (s : Sys) : Prop :=
  s.hw = pushedValue s.st

/-- The public operations of `sreg.h`. -/
inductive Op : Type where
  | opInit (ds shcp stcp init_value sreg_count : Nat)
  | opTestBit (pin : Nat)
  | opTestAllBits
  | opWriteBit (pin bit_value : Nat)
  | opInvertBit (pin : Nat)
  | opWriteBits (bits : Nat)
  | opLatchLow
  | opLatchHigh

/-- Runs one public operation: its state change and its event trace.
`sreg_test_bit`, `sreg_test_all_bits`, `sreg_write_bit` and
`sreg_invert_bit` have bodies without pin calls, so their traces are
empty. -/
def runOp (st : SregState) : Op → SregState × List Ev
  | Op.opInit ds shcp stcp v L => sreg_init st ds shcp stcp v L
  | Op.opTestBit _ => (st, [])
  | Op.opTestAllBits => (st, [])
  | Op.opWriteBit pin b => (sreg_write_bit st pin b, [])
  | Op.opInvertBit pin => (sreg_invert_bit st pin, [])
  | Op.opWriteBits bits => sreg_write_bits st bits
  | Op.opLatchLow => sreg_latch_low st
  | Op.opLatchHigh => sreg_latch_high st

/-! ### Bit-level helper lemmas -/

lemma testBit_one_shiftLeft (i j : Nat) :
    (1 <<< i).testBit j = decide (i = j) := by
  rw [Nat.one_shiftLeft]; exact Nat.testBit_two_pow

lemma sreg_test_bit_eq (st : SregState) (i : Nat) :
    sreg_test_bit st i = if st.shcp_reg_.testBit i then 1 else 0 := by
  unfold sreg_test_bit
  rw [Nat.one_shiftLeft, Nat.and_two_pow]
  by_cases t : st.shcp_reg_.testBit i
  · simp [t, (pow_pos (show (0 : Nat) < 2 by norm_num) i).ne']
  · simp [t]

lemma testBit_write_bit (st : SregState) (pin b j : Nat) (hpin : pin < 32) :
    (sreg_write_bit st pin b).shcp_reg_.testBit j =
      if j = pin then decide (b ≠ 0)
      else (st.shcp_reg_.testBit j && decide (j < 32)) := by
  have hshift : ((if b ≠ 0 then 1 else 0 : Nat) <<< pin).testBit j =
      (decide (b ≠ 0) && decide (j = pin)) := by
    by_cases hb : b = 0
    · simp [hb, Nat.zero_shiftLeft, Nat.zero_testBit]
    · have hc : (if b ≠ 0 then (1 : Nat) else 0) = 1 := if_pos hb
      rw [hc, testBit_one_shiftLeft]
      by_cases hpj : pin = j
      · subst hpj; simp [hb]
      · simp [hb, hpj, Ne.symm hpj]
  unfold sreg_write_bit not32 W32
  simp only [Nat.testBit_lor, Nat.testBit_land, Nat.testBit_xor,
    testBit_one_shiftLeft, Nat.testBit_two_pow_sub_one, hshift]
  by_cases hj : j = pin
  · subst hj; simp [hpin]
  · simp [hj, Ne.symm hj]

lemma testBit_high_false (r j : Nat) (hr : r < W32) (hj : 32 ≤ j) :
    r.testBit j = false :=
  Nat.testBit_lt_two_pow
    (lt_of_lt_of_le hr (Nat.pow_le_pow_right (by norm_num) hj))

/-! ### Claims about the in-memory bit operations -/

/-- Claim C2: for every prior state, valid bit index `i` and value `v`,
after `writeBit(i, v)` the bit `i` reads `1` exactly when `v` is nonzero,
and every other valid bit `j` reads the same value as before. -/
theorem writeBit_sets_bit_and_frames (st : SregState) (i j v : Nat)
    (hW : 8 * st.sreg_count_ ≤ 32) (hi : i < 8 * st.sreg_count_)
    (hj : j < 8 * st.sreg_count_) (hji : j ≠ i) :
    sreg_test_bit (sreg_write_bit st i v) i = (if v ≠ 0 then 1 else 0) ∧
    sreg_test_bit (sreg_write_bit st i v) j = sreg_test_bit st j := by
  have hi32 : i < 32 := lt_of_lt_of_le hi hW
  have hj32 : j < 32 := lt_of_lt_of_le hj hW
  constructor
  · rw [sreg_test_bit_eq, testBit_write_bit st i v i hi32]
    by_cases hv : v = 0 <;> simp [hv]
  · rw [sreg_test_bit_eq, testBit_write_bit st i v j hi32,
      sreg_test_bit_eq]
    simp [hji, hj32]

/-- Witness for C2 at chain length 3, state `5`, `writeBit(0, 7)`. -/
theorem writeBit_sets_bit_and_frames_witness :
    (8 * (⟨2, 3, 4, 3, 5⟩ : SregState).sreg_count_ ≤ 32 ∧
      0 < 8 * (⟨2, 3, 4, 3, 5⟩ : SregState).sreg_count_ ∧
      1 < 8 * (⟨2, 3, 4, 3, 5⟩ : SregState).sreg_count_ ∧ (1 : Nat) ≠ 0) ∧
    (sreg_test_bit (sreg_write_bit ⟨2, 3, 4, 3, 5⟩ 0 7) 0 =
        (if (7 : Nat) ≠ 0 then 1 else 0) ∧
      sreg_test_bit (sreg_write_bit ⟨2, 3, 4, 3, 5⟩ 0 7) 1 =
        sreg_test_bit ⟨2, 3, 4, 3, 5⟩ 1) :=
  ⟨by decide,
    writeBit_sets_bit_and_frames ⟨2, 3, 4, 3, 5⟩ 0 1 7 (by decide)
      (by decide) (by decide) (by decide)⟩

/-- Claim C3: `writeBits(x)` followed by `testAllBits()` returns exactly
`x`, for every representable `x` and every prior state. -/
theorem writeBits_then_testAllBits (st : SregState) (x : Nat)
    (hx : x < W32) :
    sreg_test_all_bits (sreg_write_bits st x).1 = x := by
  simp [sreg_write_bits, sreg_latch_low, sreg_latch_high,
    sreg_test_all_bits, Nat.mod_eq_of_lt hx]

/-- Witness for C3 at `x = 123456`. -/
theorem writeBits_then_testAllBits_witness :
    (123456 : Nat) < W32 ∧
    sreg_test_all_bits (sreg_write_bits initialState 123456).1 = 123456 :=
  ⟨by decide, writeBits_then_testAllBits initialState 123456 (by decide)⟩

/-- Claim C6: `invertBit(i)` applied twice restores the state: it is its
own inverse on the in-memory state, for every representable state and
valid index `i`. -/
theorem invertBit_involutive (st : SregState) (i : Nat)
    (hr : st.shcp_reg_ < W32) (hW : 8 * st.sreg_count_ ≤ 32)
    (hi : i < 8 * st.sreg_count_) :
    sreg_invert_bit (sreg_invert_bit st i) i = st ∧
    sreg_test_bit (sreg_invert_bit (sreg_invert_bit st i) i) i =
      sreg_test_bit st i := by
  have hi32 : i < 32 := lt_of_lt_of_le hi hW
  have hmain : sreg_invert_bit (sreg_invert_bit st i) i = st := by
    ext
    case ds_ => rfl
    case shcp_ => rfl
    case stcp_ => rfl
    case sreg_count_ => rfl
    case shcp_reg_ =>
      apply Nat.eq_of_testBit_eq
      intro j
      unfold sreg_invert_bit
      by_cases hj32 : j < 32
      · by_cases hj : j = i
        · subst hj
          rw [testBit_write_bit _ _ _ _ hi32]
          rw [sreg_test_bit_eq, testBit_write_bit _ _ _ _ hi32]
          rw [sreg_test_bit_eq]
          by_cases t : st.shcp_reg_.testBit j <;> simp [t]
        · rw [testBit_write_bit _ _ _ _ hi32,
            testBit_write_bit _ _ _ _ hi32]
          simp [hj, hj32]
      · have h32j : 32 ≤ j := Nat.le_of_not_lt hj32
        have hji : j ≠ i := by omega
        rw [testBit_write_bit _ _ _ _ hi32]
        simp [hji, hj32, testBit_high_false st.shcp_reg_ j hr h32j]
  exact ⟨hmain, by rw [hmain]⟩

/-- Witness for C6 at chain length 1, state `5`, bit `3`. -/
theorem invertBit_involutive_witness :
    ((⟨2, 3, 4, 1, 5⟩ : SregState).shcp_reg_ < W32 ∧
      8 * (⟨2, 3, 4, 1, 5⟩ : SregState).sreg_count_ ≤ 32 ∧
      3 < 8 * (⟨2, 3, 4, 1, 5⟩ : SregState).sreg_count_) ∧
    (sreg_invert_bit (sreg_invert_bit ⟨2, 3, 4, 1, 5⟩ 3) 3 =
        ⟨2, 3, 4, 1, 5⟩ ∧
      sreg_test_bit (sreg_invert_bit (sreg_invert_bit ⟨2, 3, 4, 1, 5⟩ 3) 3)
          3 = sreg_test_bit ⟨2, 3, 4, 1, 5⟩ 3) :=
  ⟨by decide,
    invertBit_involutive ⟨2, 3, 4, 1, 5⟩ 3 (by decide) (by decide)
      (by decide)⟩

/-! ### The latch-high push trace -/

lemma shiftLoop_eq_flatMap (st : SregState) (n : Nat) :
    shiftLoop st n = (List.range n).reverse.flatMap fun i =>
      [Ev.digitalWrite st.shcp_ 0,
       Ev.digitalWrite st.ds_ (sreg_test_bit st i),
       Ev.digitalWrite st.shcp_ 1, Ev.digitalWrite st.ds_ 0] := by
  induction n with
  | zero => rfl
  | succ n ih =>
      rw [shiftLoop, List.range_succ, List.reverse_append, ih]
      rfl

lemma count_shiftLoop_stcp (st : SregState) (n lvl : Nat)
    (h1 : st.stcp_ ≠ st.shcp_) (h2 : st.stcp_ ≠ st.ds_) :
    (shiftLoop st n).count (Ev.digitalWrite st.stcp_ lvl) = 0 := by
  induction n with
  | zero => rfl
  | succ n ih =>
      rw [shiftLoop]
      simp [List.count_cons, ih, Ne.symm h1, Ne.symm h2]

/-- Claim C1: for every configuration, `latchHigh` emits exactly, in
order, for each bit index `i` from `W - 1` down to `0` with
`W = 4 << chainLength`: shift-clock low, data := bit `i`, shift-clock
high, data low; then exactly one latch-clock high write, and no
latch-clock low write occurs anywhere inside `latchHigh`. -/
theorem latchHigh_emits_push_sequence (st : SregState)
    (h1 : st.stcp_ ≠ st.shcp_) (h2 : st.stcp_ ≠ st.ds_) :
    (sreg_latch_high st).2 =
      specPushTrace st.ds_ st.shcp_ st.stcp_ (sreg_test_bit st)
        (4 <<< st.sreg_count_) ∧
    (sreg_latch_high st).2.count (Ev.digitalWrite st.stcp_ 0) = 0 ∧
    (sreg_latch_high st).2.count (Ev.digitalWrite st.stcp_ 1) = 1 := by
  refine ⟨?_, ?_, ?_⟩
  · show shiftLoop st (4 <<< st.sreg_count_) ++ [Ev.digitalWrite st.stcp_ 1]
        = _
    rw [shiftLoop_eq_flatMap]
    rfl
  · show (shiftLoop st (4 <<< st.sreg_count_) ++
        [Ev.digitalWrite st.stcp_ 1]).count (Ev.digitalWrite st.stcp_ 0) = 0
    rw [List.count_append, count_shiftLoop_stcp st _ 0 h1 h2]
    simp
  · show (shiftLoop st (4 <<< st.sreg_count_) ++
        [Ev.digitalWrite st.stcp_ 1]).count (Ev.digitalWrite st.stcp_ 1) = 1
    rw [List.count_append, count_shiftLoop_stcp st _ 1 h1 h2]
    simp

/-- Witness for C1 at configuration `ds = 2`, `shcp = 3`, `stcp = 4`,
chain length 1, state `171`. -/
theorem latchHigh_emits_push_sequence_witness :
    ((⟨2, 3, 4, 1, 171⟩ : SregState).stcp_ ≠
        (⟨2, 3, 4, 1, 171⟩ : SregState).shcp_ ∧
      (⟨2, 3, 4, 1, 171⟩ : SregState).stcp_ ≠
        (⟨2, 3, 4, 1, 171⟩ : SregState).ds_) ∧
    ((sreg_latch_high ⟨2, 3, 4, 1, 171⟩).2 =
        specPushTrace 2 3 4 (sreg_test_bit ⟨2, 3, 4, 1, 171⟩) (4 <<< 1) ∧
      (sreg_latch_high ⟨2, 3, 4, 1, 171⟩).2.count (Ev.digitalWrite 4 0)
          = 0 ∧
      (sreg_latch_high ⟨2, 3, 4, 1, 171⟩).2.count (Ev.digitalWrite 4 1)
          = 1) :=
  ⟨by decide,
    latchHigh_emits_push_sequence ⟨2, 3, 4, 1, 171⟩ (by decide)
      (by decide)⟩

/-- Counterexample to claim C4: with `ds = 2`, chain length 1 and state
`1`, the first value driven onto the data pin during `latchHigh` is `0`
(the value of bit `W - 1 = 7`), not the value `1` of bit `0`. -/
theorem firstDataBit_counterexample :
    firstWriteTo 2 (sreg_latch_high ⟨2, 3, 4, 1, 1⟩).2 ≠
      some (sreg_test_bit ⟨2, 3, 4, 1, 1⟩ 0) ∧
    firstWriteTo 2 (sreg_latch_high ⟨2, 3, 4, 1, 1⟩).2 = some 0 ∧
    sreg_test_bit ⟨2, 3, 4, 1, 1⟩ 0 = 1 := by decide

/-- Claim C4 as amended: during every push, the first data value driven
onto the data pin is the value of bit `W - 1` (`W = 4 << chainLength`):
bits are shifted out most-significant-first, and bit `0` is the last bit
shifted. -/
theorem firstDataBit_is_msb (st : SregState) (h : st.ds_ ≠ st.shcp_) :
    firstWriteTo st.ds_ (sreg_latch_high st).2 =
      some (sreg_test_bit st (4 <<< st.sreg_count_ - 1)) := by
  have hpos : 0 < 4 <<< st.sreg_count_ := by
    rw [Nat.shiftLeft_eq]; positivity
  obtain ⟨m, hm⟩ : ∃ m, 4 <<< st.sreg_count_ = m + 1 :=
    ⟨4 <<< st.sreg_count_ - 1, (Nat.succ_pred_eq_of_pos hpos).symm⟩
  show firstWriteTo st.ds_
      (shiftLoop st (4 <<< st.sreg_count_) ++ [Ev.digitalWrite st.stcp_ 1])
      = some (sreg_test_bit st (4 <<< st.sreg_count_ - 1))
  rw [hm, shiftLoop]
  simp [firstWriteTo, Ne.symm h]

/-- Witness for the amended C4 at configuration `ds = 2`, `shcp = 3`,
chain length 1, state `1`. -/
theorem firstDataBit_is_msb_witness :
    (⟨2, 3, 4, 1, 1⟩ : SregState).ds_ ≠
        (⟨2, 3, 4, 1, 1⟩ : SregState).shcp_ ∧
    firstWriteTo 2 (sreg_latch_high ⟨2, 3, 4, 1, 1⟩).2 =
      some (sreg_test_bit ⟨2, 3, 4, 1, 1⟩ (4 <<< 1 - 1)) :=
  ⟨by decide, firstDataBit_is_msb ⟨2, 3, 4, 1, 1⟩ (by decide)⟩

/-- Claim C9: `latchLow` emits exactly three digital-output writes —
latch-clock low, data low, shift-clock low — and nothing else, and the
state is untouched. -/
theorem latchLow_emits_three_low_writes (st : SregState) :
    sreg_latch_low st =
      (st, [Ev.digitalWrite st.stcp_ 0, Ev.digitalWrite st.ds_ 0,
            Ev.digitalWrite st.shcp_ 0]) ∧
    dwCount (sreg_latch_low st).2 = 3 :=
  ⟨rfl, rfl⟩

/-- Claim C10: `latchLow` and `latchHigh` leave the in-memory register
state unchanged, so `testAllBits` reads the same value before and after
either call. -/
theorem latch_preserves_state (st : SregState) :
    (sreg_latch_low st).1 = st ∧ (sreg_latch_high st).1 = st ∧
    sreg_test_all_bits (sreg_latch_low st).1 = sreg_test_all_bits st ∧
    sreg_test_all_bits (sreg_latch_high st).1 = sreg_test_all_bits st :=
  ⟨rfl, rfl, rfl, rfl⟩

/-! ### The value a push commits to the chain -/

lemma dataLevels_length (st : SregState) (n : Nat) :
    (dataLevels st n).length = n := by
  induction n with
  | zero => rfl
  | succ n ih => simp [dataLevels, ih]

/-- The data levels clocked in most-significant-first during a push of
width `n` decode to the low `n` bits of the mirror: this justifies
`pushedValue`. -/
lemma decodeMSB_dataLevels (st : SregState) (n : Nat) :
    decodeMSB (dataLevels st n) = st.shcp_reg_ % 2 ^ n := by
  induction n with
  | zero => simp [dataLevels, decodeMSB, Nat.mod_one]
  | succ n ih =>
      rw [dataLevels, decodeMSB, dataLevels_length, ih, sreg_test_bit_eq,
        Nat.mod_pow_succ]
      have hlt : st.shcp_reg_ / 2 ^ n % 2 < 2 :=
        Nat.mod_lt _ (by norm_num)
      by_cases t : st.shcp_reg_.testBit n
      · have h1 : st.shcp_reg_ / 2 ^ n % 2 = 1 := by
          rw [Nat.testBit_to_div_mod] at t
          exact of_decide_eq_true t
        rw [h1]; simp [t]; ring
      · have h0 : st.shcp_reg_ / 2 ^ n % 2 = 0 := by
          rw [Nat.testBit_to_div_mod] at t
          simp at t
          omega
        rw [h0]; simp [t]

/-- Counterexample to claim C5: after `initialize(2, 3, 4, 3, 1)` the
mirror and the hardware agree, but a subsequent `writeBit(2, 1)` changes
the mirror to `7` while the last pushed value is still `3`. -/
theorem mirrorSynced_counterexample :
    mirrorSynced (sysInit ⟨initialState, 0⟩ 2 3 4 3 1) ∧
    ¬ mirrorSynced (sysWriteBit (sysInit ⟨initialState, 0⟩ 2 3 4 3 1) 2 1)
    := by decide

/-- Claim C5 as amended: the hardware-synchronizing operations
(`initialize`, `writeBits`, `latchHigh`) always leave the mirror equal to
the value they just pushed, and `latchLow` preserves that agreement; but
`writeBit` and `invertBit` mutate the mirror without pushing, so after
them the mirror may differ from the hardware until the next push. -/
theorem mirrorSynced_after_push (s : Sys) (ds shcp stcp v L bits : Nat) :
    mirrorSynced (sysInit s ds shcp stcp v L) ∧
    mirrorSynced (sysWriteBits s bits) ∧
    mirrorSynced (sysLatchHigh s) ∧
    (mirrorSynced s → mirrorSynced (sysLatchLow s)) :=
  ⟨rfl, rfl, rfl, fun h => h⟩

/-- Witness for the amended C5: a fresh chain after `initialize` is
synced, and stays synced across `latchLow`. -/
theorem mirrorSynced_after_push_witness :
    mirrorSynced (sysInit ⟨initialState, 0⟩ 2 3 4 3 1) ∧
    mirrorSynced (sysLatchLow (sysInit ⟨initialState, 0⟩ 2 3 4 3 1)) :=
  ⟨(mirrorSynced_after_push ⟨initialState, 0⟩ 2 3 4 3 1 0).1,
    (mirrorSynced_after_push (sysInit ⟨initialState, 0⟩ 2 3 4 3 1)
        2 3 4 3 1 0).2.2.2
      ((mirrorSynced_after_push ⟨initialState, 0⟩ 2 3 4 3 1 0).1)⟩

/-! ### Which operations touch hardware -/

lemma dwCount_append (a b : List Ev) :
    dwCount (a ++ b) = dwCount a + dwCount b := by
  induction a with
  | nil => simp [dwCount]
  | cons e rest ih =>
      cases e
      · simp [dwCount, ih]
      · simp [dwCount, ih]
        omega

/-- Claim C7: `writeBit`, `invertBit` (and the read operations) emit no
digital-output writes; `writeBits`, `initialize`, `latchLow` and
`latchHigh` each emit at least one. -/
theorem memoryOnly_operations_emit_nothing (st : SregState)
    (pin b bits ds shcp stcp v L : Nat) :
    (runOp st (Op.opWriteBit pin b)).2 = [] ∧
    (runOp st (Op.opInvertBit pin)).2 = [] ∧
    (runOp st (Op.opTestBit pin)).2 = [] ∧
    (runOp st Op.opTestAllBits).2 = [] ∧
    0 < dwCount (runOp st (Op.opWriteBits bits)).2 ∧
    0 < dwCount (runOp st (Op.opInit ds shcp stcp v L)).2 ∧
    0 < dwCount (runOp st Op.opLatchLow).2 ∧
    0 < dwCount (runOp st Op.opLatchHigh).2 := by
  refine ⟨rfl, rfl, rfl, rfl, ?_, ?_, ?_, ?_⟩
  · show 0 < dwCount ((sreg_write_bits st bits).2)
    simp [sreg_write_bits, sreg_latch_low, sreg_latch_high,
      dwCount_append, dwCount]
  · show 0 < dwCount ((sreg_init st ds shcp stcp v L).2)
    simp [sreg_init, sreg_write_bits, sreg_latch_low, sreg_latch_high,
      dwCount_append, dwCount]
  · show 0 < dwCount ((sreg_latch_low st).2)
    simp [sreg_latch_low, dwCount]
  · show 0 < dwCount ((sreg_latch_high st).2)
    simp [sreg_latch_high, dwCount_append, dwCount]

/-! ### Initialization -/

/-- Claim C8: `initialize` configures the three pins as outputs, stores
the configuration, and immediately pushes the initial value (latch-low
writes followed by the full shift/latch sequence); in particular after
`initialize(2, 3, 4, 0b00000011, 1)` the bits read `1, 1, 0`. -/
theorem init_configures_and_pushes (st : SregState)
    (ds shcp stcp v L : Nat) :
    (sreg_init st ds shcp stcp v L).2 =
      [Ev.pinMode (ds % 256), Ev.pinMode (shcp % 256),
       Ev.pinMode (stcp % 256), Ev.digitalWrite (stcp % 256) 0,
       Ev.digitalWrite (ds % 256) 0, Ev.digitalWrite (shcp % 256) 0]
        ++ specPushTrace (ds % 256) (shcp % 256) (stcp % 256)
            (fun i => if (v % W32).testBit i then 1 else 0) (4 <<< L) ∧
    (sreg_init st ds shcp stcp v L).1 =
      ⟨ds % 256, shcp % 256, stcp % 256, L, v % W32⟩ ∧
    sreg_test_bit (sreg_init st 2 3 4 3 1).1 0 = 1 ∧
    sreg_test_bit (sreg_init st 2 3 4 3 1).1 1 = 1 ∧
    sreg_test_bit (sreg_init st 2 3 4 3 1).1 2 = 0 := by
  have h3 : (3 : Nat) % W32 = 3 := Nat.mod_eq_of_lt (by norm_num [W32])
  refine ⟨?_, rfl, ?_, ?_, ?_⟩
  · have hbit :
        sreg_test_bit ⟨ds % 256, shcp % 256, stcp % 256, L, v % W32⟩ =
          fun i => if (v % W32).testBit i then 1 else 0 :=
      funext fun i => sreg_test_bit_eq _ i
    show [Ev.pinMode (ds % 256), Ev.pinMode (shcp % 256),
        Ev.pinMode (stcp % 256)] ++
        ([Ev.digitalWrite (stcp % 256) 0, Ev.digitalWrite (ds % 256) 0,
          Ev.digitalWrite (shcp % 256) 0] ++
          (shiftLoop ⟨ds % 256, shcp % 256, stcp % 256, L, v % W32⟩
              (4 <<< L) ++
            [Ev.digitalWrite (stcp % 256) 1])) = _
    rw [shiftLoop_eq_flatMap, hbit]
    simp [specPushTrace]
  · show sreg_test_bit ⟨2 % 256, 3 % 256, 4 % 256, 1, 3 % W32⟩ 0 = 1
    rw [h3]; decide
  · show sreg_test_bit ⟨2 % 256, 3 % 256, 4 % 256, 1, 3 % W32⟩ 1 = 1
    rw [h3]; decide
  · show sreg_test_bit ⟨2 % 256, 3 % 256, 4 % 256, 1, 3 % W32⟩ 2 = 0
    rw [h3]; decide

end Sreg
